import Mathlib

/-!
# Verification of the `pymongorm` mapping/naming layer

A shallow embedding of `src/orm/mongorm.py` (a small object-document mapper):
the `Common` naming-conversion helpers, the field-wrapper set, document
serialization `to_son` and deserialization `from_dict`, and the structural
equality `MongoCollectionBase.__eq__`.

Conventions of the embedding:
* Python strings are `String` / `List Char`; the `[A-Z]`, `[a-z]` regex classes
  and `str.lower`/`str.upper` are modelled over ASCII with `Char.isUpper`,
  `Char.isLower`, `Char.toLower`, `Char.toUpper`, which implement exactly the
  ASCII ranges used by the source's regexes.
* Python runtime values are the inductive `PyVal`; `float` is modelled as an
  exact rational (only pass-through and small-integer coercions occur in the
  verified claims); mutable process-wide configuration (the active naming
  convention) is passed explicitly as a parameter.
* Fallible code returns `Except PyErr`; each `PyErr` constructor corresponds to
  a Python exception class.  `PyErr.unmodelled` marks branches whose behaviour
  (string parsing of numbers, fresh `ObjectId` generation, epoch arithmetic)
  is outside the scope of the embedding; no theorem depends on those branches.
-/

namespace Mongorm

/-! ## `Defaults` (lines 22-32) and Python string primitives -/

/-- `Defaults.NamingConventions` (lines 23-27). -/
inductive NamingConventions where
  | SNAKE_CASE
  | CAMEL_CASE
  | PASCAL_CASE
  | UNCHANGED
deriving DecidableEq, Repr

/-- `Defaults.name_separator` (line 30): the string `'_'`. -/
def name_separator : List Char := ['_']

/-- `Defaults.strip_separators` (line 29): `['_', '-']`. -/
def strip_separators : List Char := ['_', '-']

/-- ASCII whitespace recognised by Python's `str.split()` / `str.strip()`
(the inputs of the claims are ASCII). -/
def pyIsSpace (c : Char) : Bool :=
  c = ' ' || c = '\t' || c = '\n' || c = '\r' || c.toNat = 11 || c.toNat = 12

/-- Python `text.replace(old, new)` for one-character patterns. -/
def pyReplaceChar (old new : Char) (s : List Char) : List Char :=
  s.map fun c => if c = old then new else c

/-- Python `str.split(sep)` with an explicit one-character separator:
keeps empty pieces, `''.split(sep) = ['']`. -/
def pySplitChar (sep : Char) : List Char → List (List Char)
  | [] => [[]]
  | c :: cs =>
    match pySplitChar sep cs with
    | [] => [[]]
    | w :: ws => if c = sep then [] :: w :: ws else (c :: w) :: ws

/-- Helper for `splitWs`: `w` is the current word, reversed. -/
def splitWsAux : List Char → List Char → List (List Char)
  | w, [] => if w.isEmpty then [] else [w.reverse]
  | w, c :: cs =>
    if pyIsSpace c then
      if w.isEmpty then splitWsAux [] cs else w.reverse :: splitWsAux [] cs
    else splitWsAux (c :: w) cs

/-- Python `str.split()` (no argument): split on whitespace runs, dropping
empty pieces. -/
def splitWs (s : List Char) : List (List Char) := splitWsAux [] s

/-- Python `sep.join(words)`. -/
def joinSep (sep : List Char) : List (List Char) → List Char
  | [] => []
  | [w] => w
  | w :: ws => w ++ sep ++ joinSep sep ws

/-- Python `str.strip()`: drop leading and trailing whitespace. -/
def pyStrip (s : List Char) : List Char :=
  ((s.dropWhile pyIsSpace).reverse.dropWhile pyIsSpace).reverse

/-! ## `Common.snake_case` (lines 35-38)

`re.sub('([A-Z]+)', r' \1', text)` inserts a space before each maximal run of
uppercase letters; the subsequent `re.sub('([A-Z][a-z]+)', r' \1', ...)`
inserts a space before each uppercase letter that is followed by at least one
lowercase letter (consuming the maximal lowercase run, as `re.sub` resumes
scanning after each match).  Both are modelled as left-to-right scans with an
`inRun` flag marking that the scanner is inside the previous match. -/

/-- Scan for `re.sub('([A-Z]+)', r' \1', text)`: `inRun` is true while inside
a run of uppercase letters that has already received its leading space. -/
def sub1Aux : Bool → List Char → List Char
  | _, [] => []
  | inRun, c :: cs =>
    if c.isUpper then
      if inRun then c :: sub1Aux true cs
      else ' ' :: c :: sub1Aux true cs
    else c :: sub1Aux false cs

/-- `re.sub('([A-Z]+)', r' \1', text)`. -/
def sub1 (s : List Char) : List Char := sub1Aux false s

/-- Is the head of the list a lowercase letter? -/
def headIsLower : List Char → Bool
  | [] => false
  | d :: _ => d.isLower

/-- Scan for `re.sub('([A-Z][a-z]+)', r' \1', text)`: `inRun` is true while
inside the lowercase tail of a match. -/
def sub2Aux : Bool → List Char → List Char
  | _, [] => []
  | inRun, c :: cs =>
    if inRun && c.isLower then c :: sub2Aux true cs
    else if c.isUpper && headIsLower cs then ' ' :: c :: sub2Aux true cs
    else c :: sub2Aux false cs

/-- `re.sub('([A-Z][a-z]+)', r' \1', text)`. -/
def sub2 (s : List Char) : List Char := sub2Aux false s

/-- `Common.snake_case` on character lists (lines 36-38):
`Defaults.name_separator.join([word.lower() for word in
' '.join(text.lower().split()).split(' ')])` applied to the doubly
regex-substituted text. -/
def snakeList (text : List Char) : List Char :=
  let t := sub2 (sub1 text)
  let words := splitWs (t.map Char.toLower)
  let words2 := pySplitChar ' ' (joinSep [' '] words)
  joinSep name_separator (words2.map (List.map Char.toLower))

/-- `Common.snake_case` (lines 35-38). -/
def snake_case (text : String) : String := String.mk (snakeList text.data)

/-- Capitalize every word as `word[0].upper() + word[1:]`; `none` models the
`IndexError` Python raises when some word is the empty string. -/
def capWords : List (List Char) → Option (List Char)
  | [] => some []
  | [] :: _ => none
  | (c :: cs) :: ws => (capWords ws).map (fun rest => (c.toUpper :: cs) ++ rest)

/-- The word list shared by `camel_case` and `pascal_case` (lines 42-44 and
49-51): normalize `'-'` to `'_'`, split on `'_'`, strip and lowercase each
piece. -/
def caseWords (text : List Char) : List (List Char) :=
  let t := pyReplaceChar '-' '_' text
  (pySplitChar '_' t).map (fun w => (pyStrip w).map Char.toLower)

/-- `Common.camel_case` on character lists (lines 40-45): first word kept
lowercase, every later word capitalized.  `none` models the `IndexError`
raised when a later word is empty. -/
def camelList (text : List Char) : Option (List Char) :=
  match caseWords text with
  | [] => none
  | w :: ws => (capWords ws).map (fun capped => w ++ capped)

/-- `Common.camel_case` (lines 40-45). -/
def camel_case (text : String) : Option String :=
  (camelList text.data).map String.mk

/-- `Common.pascal_case` on character lists (lines 47-52): every word
capitalized, including the first.  `none` models the `IndexError` raised when
any word is empty (in particular `pascal_case('')`). -/
def pascalList (text : List Char) : Option (List Char) :=
  capWords (caseWords text)

/-- `Common.pascal_case` (lines 47-52). -/
def pascal_case (text : String) : Option String :=
  (pascalList text.data).map String.mk

/-- `Common.convert_collection_name` (lines 54-63); the process-wide
`Defaults.collection_naming_convention` is passed explicitly. -/
def convert_collection_name (conv : NamingConventions) (collection_name : String) :
    Option String :=
  match conv with
  | .CAMEL_CASE => camel_case collection_name
  | .SNAKE_CASE => some (snake_case collection_name)
  | .PASCAL_CASE => pascal_case collection_name
  | .UNCHANGED => some collection_name

/-- `Common.convert_field_name` (lines 65-74); the process-wide
`Defaults.field_naming_convention` is passed explicitly. -/
def convert_field_name (conv : NamingConventions) (field_name : String) :
    Option String :=
  match conv with
  | .CAMEL_CASE => camel_case field_name
  | .SNAKE_CASE => some (snake_case field_name)
  | .PASCAL_CASE => pascal_case field_name
  | .UNCHANGED => some field_name

end Mongorm

namespace Mongorm

theorem char_isUpper_iff (c : Char) : c.isUpper = true ↔ 65 ≤ c.toNat ∧ c.toNat ≤ 90 := by
  simp [Char.isUpper, UInt32.le_def, BitVec.le_def, Char.toNat, UInt32.toNat]

theorem toNat_ofNat_valid {n : Nat} (h : n.isValidChar) : (Char.ofNat n).toNat = n := by
  rw [Char.ofNat, dif_pos h]
  rfl

theorem char_isUpper_eq_false_iff (c : Char) :
    c.isUpper = false ↔ ¬(65 ≤ c.toNat ∧ c.toNat ≤ 90) := by
  rw [← char_isUpper_iff]
  cases h : c.isUpper <;> simp

theorem char_toLower_of_not_upper {c : Char} (h : c.isUpper = false) : c.toLower = c := by
  rw [Char.toLower, if_neg]
  rw [char_isUpper_eq_false_iff] at h
  exact fun hc => h ⟨hc.1, hc.2⟩

theorem char_isUpper_toLower (c : Char) : (c.toLower).isUpper = false := by
  by_cases h : c.isUpper = true
  · rw [char_isUpper_iff] at h
    rw [Char.toLower, if_pos ⟨h.1, h.2⟩]
    have hv : (c.toNat + 32).isValidChar := Or.inl (by omega)
    rw [char_isUpper_eq_false_iff, toNat_ofNat_valid hv]
    omega
  · rw [Bool.not_eq_true] at h
    rw [char_toLower_of_not_upper h]
    exact h

theorem char_eq_iff_toNat (c d : Char) : c = d ↔ c.toNat = d.toNat := by
  constructor
  · rintro rfl; rfl
  · intro h
    rw [← Char.ofNat_toNat c, ← Char.ofNat_toNat d, h]

theorem pyIsSpace_iff (c : Char) :
    pyIsSpace c = true ↔
      c.toNat = 32 ∨ c.toNat = 9 ∨ c.toNat = 10 ∨ c.toNat = 13 ∨ c.toNat = 11 ∨ c.toNat = 12 := by
  simp [pyIsSpace, char_eq_iff_toNat]
  tauto

theorem pyIsSpace_toLower (c : Char) : pyIsSpace c.toLower = pyIsSpace c := by
  by_cases h : c.isUpper = true
  · rw [char_isUpper_iff] at h
    have hv : (c.toNat + 32).isValidChar := Or.inl (by omega)
    rw [Char.toLower, if_pos ⟨h.1, h.2⟩]
    have h1 : pyIsSpace (Char.ofNat (c.toNat + 32)) = false := by
      rw [← Bool.not_eq_true, pyIsSpace_iff, toNat_ofNat_valid hv]
      omega
    have h2 : pyIsSpace c = false := by
      rw [← Bool.not_eq_true, pyIsSpace_iff]
      omega
    rw [h1, h2]
  · rw [Bool.not_eq_true] at h
    rw [char_toLower_of_not_upper h]

end Mongorm

namespace Mongorm

theorem sub1Aux_id {s : List Char} (h : ∀ c ∈ s, c.isUpper = false) (b : Bool) :
    sub1Aux b s = s := by
  induction s generalizing b with
  | nil => rfl
  | cons c cs ih =>
    have hc := h c (List.mem_cons_self c cs)
    have hcs : ∀ d ∈ cs, d.isUpper = false := fun d hd => h d (List.mem_cons_of_mem c hd)
    simp [sub1Aux, hc, ih hcs]

theorem sub2Aux_id {s : List Char} (h : ∀ c ∈ s, c.isUpper = false) (b : Bool) :
    sub2Aux b s = s := by
  induction s generalizing b with
  | nil => rfl
  | cons c cs ih =>
    have hc := h c (List.mem_cons_self c cs)
    have hcs : ∀ d ∈ cs, d.isUpper = false := fun d hd => h d (List.mem_cons_of_mem c hd)
    by_cases hr : (b && c.isLower) = true
    · simp [sub2Aux, hr, ih hcs]
    · simp only [sub2Aux, Bool.not_eq_true] at hr ⊢
      rw [hr]
      simp [hc, ih hcs]

theorem map_toLower_id {s : List Char} (h : ∀ c ∈ s, c.isUpper = false) :
    s.map Char.toLower = s := by
  induction s with
  | nil => rfl
  | cons c cs ih =>
    have hc := h c (List.mem_cons_self c cs)
    have hcs : ∀ d ∈ cs, d.isUpper = false := fun d hd => h d (List.mem_cons_of_mem c hd)
    simp [char_toLower_of_not_upper hc, ih hcs]

theorem splitWsAux_no_space {s w : List Char}
    (hs : ∀ c ∈ s, pyIsSpace c = false) :
    splitWsAux w s = if (w.reverse ++ s).isEmpty then [] else [w.reverse ++ s] := by
  induction s generalizing w with
  | nil => cases w <;> simp [splitWsAux]
  | cons c cs ih =>
    have hc := hs c (List.mem_cons_self c cs)
    have hcs : ∀ d ∈ cs, pyIsSpace d = false := fun d hd => hs d (List.mem_cons_of_mem c hd)
    rw [splitWsAux, hc]
    simp only [Bool.false_eq_true, if_false]
    rw [ih hcs]
    simp

theorem pySplitChar_no_sep {sep : Char} {s : List Char} (h : ∀ c ∈ s, ¬c = sep) :
    pySplitChar sep s = [s] := by
  induction s with
  | nil => rfl
  | cons c cs ih =>
    have hc := h c (List.mem_cons_self c cs)
    have hcs : ∀ d ∈ cs, ¬d = sep := fun d hd => h d (List.mem_cons_of_mem c hd)
    rw [pySplitChar, ih hcs]
    simp [hc]

/-- A string whose characters are neither uppercase letters nor whitespace is a
fixed point of `snakeList`. -/
theorem snakeList_fixed {t : List Char}
    (h : ∀ c ∈ t, c.isUpper = false ∧ pyIsSpace c = false) :
    snakeList t = t := by
  have hup : ∀ c ∈ t, c.isUpper = false := fun c hc => (h c hc).1
  have hsp : ∀ c ∈ t, pyIsSpace c = false := fun c hc => (h c hc).2
  simp only [snakeList]
  rw [sub1, sub1Aux_id hup, sub2, sub2Aux_id hup, map_toLower_id hup]
  rw [splitWs, splitWsAux_no_space hsp]
  cases t with
  | nil => rfl
  | cons c cs =>
    simp only [List.reverse_nil, List.nil_append, List.isEmpty_cons, if_false,
      Bool.false_eq_true]
    rw [joinSep]
    rw [pySplitChar_no_sep (fun d hd => by
      intro hde
      have := hsp d hd
      rw [hde] at this
      simp [pyIsSpace] at this)]
    rw [List.map_singleton, map_toLower_id hup, joinSep]

end Mongorm

namespace Mongorm

theorem splitWsAux_chars {s w x : List Char} {c : Char}
    (hw : ∀ d ∈ w, pyIsSpace d = false)
    (hx : x ∈ splitWsAux w s) (hc : c ∈ x) :
    pyIsSpace c = false ∧ (c ∈ w ∨ c ∈ s) := by
  induction s generalizing w with
  | nil =>
    rw [splitWsAux] at hx
    by_cases hwe : w.isEmpty
    · simp [hwe] at hx
    · simp only [hwe, Bool.false_eq_true, if_false, List.mem_singleton] at hx
      subst hx
      rw [List.mem_reverse] at hc
      exact ⟨hw c hc, Or.inl hc⟩
  | cons a s ih =>
    rw [splitWsAux] at hx
    by_cases ha : pyIsSpace a
    · rw [if_pos ha] at hx
      by_cases hwe : w.isEmpty
      · rw [if_pos hwe] at hx
        have := ih (w := []) (by simp) hx
        exact ⟨this.1, Or.inr (List.mem_cons_of_mem a (this.2.elim (by simp) id))⟩
      · rw [if_neg hwe] at hx
        rcases List.mem_cons.mp hx with hx1 | hx2
        · subst hx1
          rw [List.mem_reverse] at hc
          exact ⟨hw c hc, Or.inl hc⟩
        · have := ih (w := []) (by simp) hx2
          exact ⟨this.1, Or.inr (List.mem_cons_of_mem a (this.2.elim (by simp) id))⟩
    · rw [if_neg ha] at hx
      have hw' : ∀ d ∈ a :: w, pyIsSpace d = false := by
        intro d hd
        rcases List.mem_cons.mp hd with rfl | hdw
        · exact Bool.not_eq_true _ ▸ (by simpa using ha)
        · exact hw d hdw
      have := ih hw' hx
      rcases this.2 with hcw | hcs
      · rcases List.mem_cons.mp hcw with rfl | hcw2
        · exact ⟨this.1, Or.inr (List.mem_cons_self _ _)⟩
        · exact ⟨this.1, Or.inl hcw2⟩
      · exact ⟨this.1, Or.inr (List.mem_cons_of_mem a hcs)⟩

theorem joinSep_chars {sep : List Char} {ws : List (List Char)} {c : Char}
    (hc : c ∈ joinSep sep ws) : c ∈ sep ∨ ∃ x ∈ ws, c ∈ x := by
  induction ws with
  | nil => simp [joinSep] at hc
  | cons w ws ih =>
    cases ws with
    | nil =>
      rw [joinSep] at hc
      exact Or.inr ⟨w, List.mem_singleton_self w, hc⟩
    | cons w2 ws2 =>
      rw [show joinSep sep (w :: w2 :: ws2) = w ++ sep ++ joinSep sep (w2 :: ws2) from rfl] at hc
      rcases List.mem_append.mp hc with h1 | h2
      · rcases List.mem_append.mp h1 with h3 | h4
        · exact Or.inr ⟨w, List.mem_cons_self _ _, h3⟩
        · exact Or.inl h4
      · rcases ih h2 with h5 | ⟨x, hx1, hx2⟩
        · exact Or.inl h5
        · exact Or.inr ⟨x, List.mem_cons_of_mem w hx1, hx2⟩

theorem pySplitChar_chars {sep : Char} {s x : List Char} {c : Char}
    (hx : x ∈ pySplitChar sep s) (hc : c ∈ x) : c ∈ s ∧ ¬c = sep := by
  induction s generalizing x with
  | nil =>
    simp [pySplitChar] at hx
    subst hx
    simp at hc
  | cons a s ih =>
    rcases hps : pySplitChar sep s with _ | ⟨w, ws⟩
    · have hx' : x ∈ [([] : List Char)] := by
        rw [pySplitChar, hps] at hx
        exact hx
      simp at hx'
      subst hx'
      simp at hc
    · have hx' : x ∈ (if a = sep then ([] : List Char) :: w :: ws else (a :: w) :: ws) := by
        rw [pySplitChar, hps] at hx
        exact hx
      by_cases ha : a = sep
      · rw [if_pos ha] at hx'
        rcases List.mem_cons.mp hx' with rfl | hx2
        · simp at hc
        · have := ih (x := x) (by rw [hps]; exact hx2) hc
          exact ⟨List.mem_cons_of_mem a this.1, this.2⟩
      · rw [if_neg ha] at hx'
        rcases List.mem_cons.mp hx' with rfl | hx2
        · rcases List.mem_cons.mp hc with rfl | hc2
          · exact ⟨List.mem_cons_self _ _, ha⟩
          · have := ih (x := w) (by rw [hps]; exact List.mem_cons_self _ _) hc2
            exact ⟨List.mem_cons_of_mem a this.1, this.2⟩
        · have := ih (x := x) (by rw [hps]; exact List.mem_cons_of_mem w hx2) hc
          exact ⟨List.mem_cons_of_mem a this.1, this.2⟩

/-- Every character of `snakeList s` is a non-uppercase, non-whitespace
character. -/
theorem snakeList_chars (s : List Char) :
    ∀ c ∈ snakeList s, c.isUpper = false ∧ pyIsSpace c = false := by
  intro c hc
  simp only [snakeList] at hc
  rcases joinSep_chars hc with hsep | ⟨x, hx1, hx2⟩
  · have : c = '_' := by simpa [name_separator] using hsep
    subst this
    constructor <;> decide
  · rcases List.mem_map.mp hx1 with ⟨y, hy1, rfl⟩
    rcases List.mem_map.mp hx2 with ⟨d, hd1, rfl⟩
    refine ⟨char_isUpper_toLower d, ?_⟩
    rw [pyIsSpace_toLower]
    have hys := pySplitChar_chars hy1 hd1
    rcases joinSep_chars hys.1 with hsp | ⟨z, hz1, hz2⟩
    · exfalso
      exact hys.2 (by simpa using hsp)
    · exact (splitWsAux_chars (w := []) (by simp) hz1 hz2).1

/-- `Common.snake_case` is idempotent. -/
theorem snakeList_idem (s : List Char) : snakeList (snakeList s) = snakeList s :=
  snakeList_fixed (snakeList_chars s)

end Mongorm

namespace Mongorm

/-! ## Claims about the Naming Converter -/

/-- **C7**: `snake_case("SNAKE    Case with  SPACES")` is
`"snake_case_with_spaces"`; in the same way `"SNAKE Case"` becomes
`"snake_case"` and `"TestCase"` becomes `"test_case"` (a separator is inserted
before each run of uppercase letters and each capitalized word boundary,
everything is lowercased and whitespace is collapsed). -/
theorem snake_case_spec_examples :
    snake_case "SNAKE    Case with  SPACES" = "snake_case_with_spaces" ∧
    snake_case "SNAKE Case" = "snake_case" ∧
    snake_case "TestCase" = "test_case" := by
  refine ⟨?_, ?_, ?_⟩ <;> decide

/-- **C2, counterexample**: `convert_field_name` under the camel and Pascal
conventions is not idempotent: converting `"text_with"` once yields
`"textWith"` (resp. `"TextWith"`), converting again yields `"textwith"`
(resp. `"Textwith"`). -/
theorem convert_name_idem_counterexample :
    ¬ ((convert_field_name .CAMEL_CASE "text_with").bind (convert_field_name .CAMEL_CASE)
        = convert_field_name .CAMEL_CASE "text_with") ∧
    ¬ ((convert_field_name .PASCAL_CASE "text_with").bind (convert_field_name .PASCAL_CASE)
        = convert_field_name .PASCAL_CASE "text_with") ∧
    ¬ ((convert_collection_name .CAMEL_CASE "text_with").bind (convert_collection_name .CAMEL_CASE)
        = convert_collection_name .CAMEL_CASE "text_with") := by
  refine ⟨?_, ?_, ?_⟩ <;> decide

/-- **C2, amended**: `convert_field_name` and `convert_collection_name` are
idempotent under repeated application with the same configuration for the
snake-case and unchanged conventions (but not for camel or Pascal case). -/
theorem convert_name_idem_snake_unchanged (s : String) :
    ((convert_field_name .SNAKE_CASE s).bind (convert_field_name .SNAKE_CASE)
        = convert_field_name .SNAKE_CASE s)
  ∧ ((convert_field_name .UNCHANGED s).bind (convert_field_name .UNCHANGED)
        = convert_field_name .UNCHANGED s)
  ∧ ((convert_collection_name .SNAKE_CASE s).bind (convert_collection_name .SNAKE_CASE)
        = convert_collection_name .SNAKE_CASE s)
  ∧ ((convert_collection_name .UNCHANGED s).bind (convert_collection_name .UNCHANGED)
        = convert_collection_name .UNCHANGED s) := by
  have hsnake : snake_case (snake_case s) = snake_case s := by
    show String.mk (snakeList (String.mk (snakeList s.data)).data) = String.mk (snakeList s.data)
    exact congrArg String.mk (snakeList_idem s.data)
  refine ⟨?_, rfl, ?_, rfl⟩ <;> simp [convert_field_name, convert_collection_name, hsnake]

/-- **C8, counterexample**: on the empty string `pascal_case` does not return
the empty string; it raises an `IndexError` (modelled as `none`), and so do
the dispatchers under the Pascal convention. -/
theorem pascal_case_empty_raises :
    pascal_case "" = none ∧ ¬ convert_field_name .PASCAL_CASE "" = some "" := by
  refine ⟨?_, ?_⟩ <;> decide

/-- **C8, amended**: on the empty string, `snake_case`, `camel_case` and the
`convert_*` dispatchers under the snake, camel and unchanged conventions
return the empty string without raising; `pascal_case` (and the dispatchers
under the Pascal convention) raise an `IndexError` instead. -/
theorem naming_empty_input :
    snake_case "" = "" ∧
    camel_case "" = some "" ∧
    pascal_case "" = none ∧
    convert_field_name .SNAKE_CASE "" = some "" ∧
    convert_field_name .CAMEL_CASE "" = some "" ∧
    convert_field_name .UNCHANGED "" = some "" ∧
    convert_field_name .PASCAL_CASE "" = none ∧
    convert_collection_name .SNAKE_CASE "" = some "" ∧
    convert_collection_name .CAMEL_CASE "" = some "" ∧
    convert_collection_name .UNCHANGED "" = some "" ∧
    convert_collection_name .PASCAL_CASE "" = none := by
  refine ⟨?_, ?_, ?_, ?_, ?_, ?_, ?_, ?_, ?_, ?_, ?_⟩ <;> decide

end Mongorm

namespace Mongorm

/-! ## The data model: `MongoType`, field kinds and Python values -/

/-- `MongoType` (lines 76-91). -/
inductive MongoType where
  | DOUBLE | STRING | OBJECT | ARRAY | BINARY_DATA | UNDEFINED | OBJECT_ID
  | BOOLEAN | DATE | NULL | REGEX | INT32 | TIMESTAMP | INT64 | DECIMAL128
deriving DecidableEq, Repr

/-- The concrete `MongoFieldBase` subclass a field was built from, together
with the constructor state that subclass keeps besides the common attributes:
`BinaryField._subtype`, `ObjectIdField._primary_key`, `RegExField._flags`. -/
inductive FieldKind where
  | binaryF (subtype : Nat)
  | booleanF
  | decimalF
  | datetimeF
  | embeddedF
  | floatF
  | intF
  | objectIdF (primary_key : Bool)
  | regexF (flags : Int)
  | stringF
  | longF
  | listF
  | timestampF
deriving DecidableEq, Repr

/-- The `mongo_type` tag each field class passes to `MongoFieldBase.__init__`. -/
def mongoTypeOf : FieldKind → MongoType
  | .binaryF _ => .BINARY_DATA
  | .booleanF => .BOOLEAN
  | .decimalF => .DECIMAL128
  | .datetimeF => .DATE
  | .embeddedF => .OBJECT
  | .floatF => .DOUBLE
  | .intF => .INT32
  | .objectIdF _ => .OBJECT_ID
  | .regexF _ => .REGEX
  | .stringF => .STRING
  | .longF => .INT64
  | .listF => .ARRAY
  | .timestampF => .TIMESTAMP

/-- The per-field metadata held by a constructed `MongoFieldBase` object plus
the attribute name under which `inspect.getmembers` finds it.  `field_name` is
the name as resolved by the field class constructor (so `'_id'` for a
primary-key `ObjectIdField`, line 216-217). -/
structure FieldMeta where
  attr_name : String
  field_name : String
  skip_none : Bool
  kind : FieldKind
  field_counter : Nat
deriving DecidableEq, Repr

/-- Python runtime values, as far as the mapper manipulates them.  A document
instance is `vDoc skip_none fields` where `fields` pairs each field's metadata
with the backing value its getter returns, listed in `inspect.getmembers`
order (alphabetical by attribute name). -/
inductive PyVal where
  | vNone
  | vBool (b : Bool)
  | vInt (n : Int)
  | vInt64 (n : Int)
  | vFloat (q : Rat)
  | vStr (s : String)
  | vBytes (bs : List Nat)
  | vBinary (bs : List Nat) (subtype : Nat)
  | vObjectId (oid : Nat)
  | vDatetime (year month day hour minute second : Nat)
  | vDate (year month day : Nat)
  | vDec128 (digits : String)
  | vRegexVal (pattern : String) (flags : Int)
  | vTimestamp (time inc : Nat)
  | vList (xs : List PyVal)
  | vSon (entries : List (String × PyVal))
  | vDoc (skip_none : Bool) (fields : List (FieldMeta × PyVal))
deriving Inhabited

/-- Python exception classes raised (or branches outside the embedding's
scope, marked `unmodelled`: numeric string parsing, fresh `ObjectId`
generation from `None`, `Timestamp`-from-`datetime` epoch arithmetic,
`str()` of compound values).  No theorem below depends on an `unmodelled`
branch. -/
inductive PyErr where
  | typeError
  | keyError
  | indexError
  | attributeError
  | valueError
  | unmodelled
deriving DecidableEq, Repr

/-! ## `_get_mongo_fields` (lines 373-377): stable sort by `_field_counter` -/

/-- One insertion step of a stable ascending insertion sort by
`_field_counter` (the element being inserted comes earlier in the original
order than everything already in the list). -/
def insertByCounter (f : FieldMeta × PyVal) :
    List (FieldMeta × PyVal) → List (FieldMeta × PyVal)
  | [] => [f]
  | g :: gs =>
    if g.1.field_counter < f.1.field_counter then g :: insertByCounter f gs
    else f :: g :: gs

/-- `MongoCollectionBase._get_mongo_fields` (lines 373-377): the discovered
fields sorted stably by declaration counter. -/
def sortFields : List (FieldMeta × PyVal) → List (FieldMeta × PyVal)
  | [] => []
  | f :: fs => insertByCounter f (sortFields fs)

theorem sizeOf_insertByCounter (f : FieldMeta × PyVal)
    (l : List (FieldMeta × PyVal)) :
    sizeOf (insertByCounter f l) = 1 + sizeOf f + sizeOf l := by
  induction l with
  | nil => simp [insertByCounter]
  | cons g gs ih =>
    rw [insertByCounter]
    by_cases h : g.1.field_counter < f.1.field_counter
    · rw [if_pos h]
      simp only [List.cons.sizeOf_spec, ih]
      omega
    · rw [if_neg h]
      simp only [List.cons.sizeOf_spec]
      try omega

theorem sizeOf_sortFields (l : List (FieldMeta × PyVal)) :
    sizeOf (sortFields l) = sizeOf l := by
  induction l with
  | nil => rfl
  | cons f fs ih =>
    rw [sortFields, sizeOf_insertByCounter]
    simp only [List.cons.sizeOf_spec, ih]

theorem mem_insertByCounter {p f : FieldMeta × PyVal}
    {l : List (FieldMeta × PyVal)} :
    p ∈ insertByCounter f l ↔ p = f ∨ p ∈ l := by
  induction l with
  | nil => simp [insertByCounter]
  | cons g gs ih =>
    rw [insertByCounter]
    by_cases h : g.1.field_counter < f.1.field_counter
    · rw [if_pos h]
      simp [ih]
      try tauto
    · rw [if_neg h]
      simp
      try tauto

theorem mem_sortFields {p : FieldMeta × PyVal} {l : List (FieldMeta × PyVal)} :
    p ∈ sortFields l ↔ p ∈ l := by
  induction l with
  | nil => simp [sortFields]
  | cons f fs ih =>
    rw [sortFields, mem_insertByCounter]
    simp [ih]
    try tauto

/-! ## SON / dict assignment and lookup -/

/-- `d[k] = v` on a Python `dict` / ordered `SON`: overwrite in place if the
key is present (keeping its position), append otherwise. -/
def dictSet {α : Type} : List (String × α) → String → α → List (String × α)
  | [], k, v => [(k, v)]
  | (k1, v1) :: rest, k, v =>
    if k1 = k then (k1, v) :: rest
    else (k1, v1) :: dictSet rest k v

/-- `d[k]` / `d.get(k)`: the value at the first (unique, for real dicts)
occurrence of `k`. -/
def pyLookup {α : Type} : List (String × α) → String → Option α
  | [], _ => none
  | (k1, v1) :: rest, k => if k1 = k then some v1 else pyLookup rest k

theorem pyLookup_dictSet_self {α : Type} (l : List (String × α)) (k : String)
    (v : α) : pyLookup (dictSet l k v) k = some v := by
  induction l with
  | nil => simp [dictSet, pyLookup]
  | cons e rest ih =>
    obtain ⟨k1, v1⟩ := e
    rw [dictSet]
    by_cases h : k1 = k
    · rw [if_pos h, pyLookup, if_pos h]
    · rw [if_neg h, pyLookup, if_neg h]
      exact ih

theorem pyLookup_dictSet_other {α : Type} {l : List (String × α)}
    {k k2 : String} (v : α) (h : ¬k2 = k) :
    pyLookup (dictSet l k v) k2 = pyLookup l k2 := by
  have h3 : ¬k = k2 := fun he => h he.symm
  induction l with
  | nil =>
    simp [dictSet, pyLookup, h3]
  | cons e rest ih =>
    obtain ⟨k1, v1⟩ := e
    rw [dictSet]
    by_cases h1 : k1 = k
    · rw [if_pos h1, pyLookup, pyLookup]
      by_cases h2 : k1 = k2
      · exact absurd (h2 ▸ h1) h
      · rw [if_neg h2, if_neg h2]
    · rw [if_neg h1, pyLookup, pyLookup]
      by_cases h2 : k1 = k2
      · rw [if_pos h2, if_pos h2]
      · rw [if_neg h2, if_neg h2]
        exact ih

theorem mem_keys_dictSet {α : Type} {l : List (String × α)} {k k2 : String}
    {v : α} :
    k2 ∈ (dictSet l k v).map Prod.fst ↔ k2 = k ∨ k2 ∈ l.map Prod.fst := by
  induction l with
  | nil => simp [dictSet]
  | cons e rest ih =>
    obtain ⟨k1, v1⟩ := e
    rw [dictSet]
    by_cases h : k1 = k
    · subst h
      by_cases h2 : k2 = k1 <;> simp [h2]
    · simp only [if_neg h, List.map, List.mem_cons, ih]
      tauto

end Mongorm

namespace Mongorm

/-! ## `to_mongo` of each field class (lines 126-277) -/

/-- Python truthiness `bool(value)` for the values of the model (objects
without `__bool__`/`__len__` are truthy). -/
def pyTruthy : PyVal → Bool
  | .vNone => false
  | .vBool b => b
  | .vInt n => n != 0
  | .vInt64 n => n != 0
  | .vFloat q => q != 0
  | .vStr s => !s.isEmpty
  | .vBytes bs => !bs.isEmpty
  | .vBinary bs _ => !bs.isEmpty
  | .vList xs => !xs.isEmpty
  | .vSon es => !es.isEmpty
  | _ => true

/-- Python `int(q)` on a float: truncation toward zero. -/
def ratTruncToZero (q : Rat) : Int := if q < 0 then -((-q).floor) else q.floor

/-- The `to_mongo` method of each non-embedded field class.  Branches mirror
the `isinstance` dispatch of the source; `bool` passes the `isinstance(value,
int)` check of `IntField` and `Int64` passes it too, both being `int`
subclasses in Python.  `.error .unmodelled` marks conversions outside the
embedding's scope (see `PyErr`). -/
def to_mongo : FieldKind → PyVal → Except PyErr PyVal
  | .binaryF st, v =>
    match v with
    | .vBinary bs s => .ok (.vBinary bs s)
    | .vBytes bs => .ok (.vBinary bs st)
    | _ => .error .typeError
  | .booleanF, v =>
    match v with
    | .vBool b => .ok (.vBool b)
    | .vNone => .ok .vNone
    | w => .ok (.vBool (pyTruthy w))
  | .decimalF, v =>
    match v with
    | .vDec128 s => .ok (.vDec128 s)
    | .vStr s => .ok (.vDec128 s)
    | _ => .error .typeError
  | .datetimeF, v =>
    match v with
    | .vDatetime y mo d h mi s => .ok (.vDatetime y mo d h mi s)
    | .vDate y mo d => .ok (.vDatetime y mo d 0 0 0)
    | _ => .error .typeError
  | .embeddedF, v =>
    match v with
    | .vDoc sn fs => .ok (.vDoc sn fs)
    | _ => .error .typeError
  | .floatF, v =>
    match v with
    | .vFloat q => .ok (.vFloat q)
    | .vNone => .ok .vNone
    | .vBool b => .ok (.vFloat (if b then 1 else 0))
    | .vInt n => .ok (.vFloat (n : Rat))
    | .vInt64 n => .ok (.vFloat (n : Rat))
    | .vStr _ => .error .unmodelled
    | _ => .error .typeError
  | .intF, v =>
    match v with
    | .vInt n => .ok (.vInt n)
    | .vBool b => .ok (.vBool b)
    | .vInt64 n => .ok (.vInt64 n)
    | .vNone => .ok .vNone
    | .vFloat q => .ok (.vInt (ratTruncToZero q))
    | .vStr _ => .error .unmodelled
    | _ => .error .typeError
  | .objectIdF _, v =>
    match v with
    | .vObjectId o => .ok (.vObjectId o)
    | _ => .error .unmodelled
  | .regexF fl, v =>
    match v with
    | .vRegexVal p f => .ok (.vRegexVal p f)
    | .vStr p => .ok (.vRegexVal p fl)
    | .vBytes _ => .error .unmodelled
    | _ => .error .typeError
  | .stringF, v =>
    match v with
    | .vStr s => .ok (.vStr s)
    | .vNone => .ok .vNone
    | .vInt n => .ok (.vStr (toString n))
    | .vInt64 n => .ok (.vStr (toString n))
    | .vBool b => .ok (.vStr (cond b "True" "False"))
    | _ => .error .unmodelled
  | .longF, v =>
    match v with
    | .vInt64 n => .ok (.vInt64 n)
    | .vNone => .ok .vNone
    | .vInt n => .ok (.vInt64 n)
    | .vBool b => .ok (.vInt64 (if b then 1 else 0))
    | .vFloat q => .ok (.vInt64 (ratTruncToZero q))
    | .vStr _ => .error .unmodelled
    | _ => .error .typeError
  | .listF, v =>
    match v with
    | .vList xs => .ok (.vList xs)
    | .vNone => .ok .vNone
    | .vStr s => .ok (.vList (s.data.map (fun c => .vStr (String.singleton c))))
    | .vBytes bs => .ok (.vList (bs.map (fun b => .vInt (Int.ofNat b))))
    | .vSon es => .ok (.vList (es.map (fun e => .vStr e.1)))
    | _ => .error .typeError
  | .timestampF, v =>
    match v with
    | .vTimestamp t i => .ok (.vTimestamp t i)
    | .vDatetime _ _ _ _ _ _ => .error .unmodelled
    | _ => .ok (.vTimestamp 0 0)

/-- Is the value Python `None`? -/
def isNoneVal : PyVal → Bool
  | .vNone => true
  | _ => false

/-- `isinstance(mongo_field, ObjectIdField) and mongo_field.primary_key`
(line 385). -/
def isPkKind : FieldKind → Bool
  | .objectIdF true => true
  | _ => false

/-- `isinstance(mongo_field, EmbeddedDocumentField)` (line 387). -/
def isEmbKind : FieldKind → Bool
  | .embeddedF => true
  | _ => false

/-- The key under which `to_son` emits a field: the reserved `'_id'` for a
primary-key `ObjectIdField`, the resolved `field_name` otherwise. -/
def emittedName (m : FieldMeta) : String :=
  if isPkKind m.kind then "_id" else m.field_name

/-! ## `MongoCollectionBase.to_son` (lines 379-392) -/

mutual

/-- `to_son` on a value: defined for document instances (`vDoc`), an
`AttributeError` otherwise (a non-document value has no `to_son` method;
this is what `mongo_field.value.to_son()` on line 388 would raise). -/
def value_to_son : PyVal → Except PyErr (List (String × PyVal))
  | .vDoc sn fields => fields_to_son sn (sortFields fields) []
  | _ => .error .attributeError
termination_by v => sizeOf v
decreasing_by
  simp only [PyVal.vDoc.sizeOf_spec, sizeOf_sortFields]
  omega

/-- The loop body of `to_son` (lines 381-391) over the sorted field list,
with the `SON` accumulator threaded through. -/
def fields_to_son (sn : Bool) :
    List (FieldMeta × PyVal) → List (String × PyVal) →
    Except PyErr (List (String × PyVal))
  | [], son => .ok son
  | (m, v) :: fs, son =>
    if (sn || m.skip_none) && isNoneVal v then
      fields_to_son sn fs son
    else if isPkKind m.kind then
      fields_to_son sn fs (dictSet son "_id" v)
    else if isEmbKind m.kind then
      match value_to_son v with
      | .error e => .error e
      | .ok inner => fields_to_son sn fs (dictSet son m.field_name (.vSon inner))
    else
      match to_mongo m.kind v with
      | .error e => .error e
      | .ok w => fields_to_son sn fs (dictSet son m.field_name w)
termination_by l _son => sizeOf l
decreasing_by
  all_goals simp only [List.cons.sizeOf_spec, Prod.mk.sizeOf_spec]
  all_goals omega

end

end Mongorm

namespace Mongorm

/-! ## `MongoCollectionBase.from_dict` (lines 394-405)

`from_dict` builds `collection = cls()` (a default-constructed instance),
collects `mongo_fields[field.field_name] = field` from
`cls._get_mongo_fields(collection)`, then for each input key looks the field
up (`KeyError` when absent) and assigns `mongo_field._value = value`.
Crucially, the field objects in `mongo_fields` are the transient
`MongoFieldBase` objects created by the property wrappers during
`inspect.getmembers` (`FieldWrapper.__call__`, lines 291-301, constructs a
fresh `MongoFieldBase` on every attribute read), so the assignments mutate
objects that `collection` does not reference, and `collection` is returned
with its backing attributes untouched.  The model keeps the transient dict
and its updates explicit and returns the untouched default instance. -/

/-- A user document class: the `skip_none` flag its `__init__` passes to
`MongoCollectionBase.__init__` and the metadata/backing-value pairs of a
default-constructed instance, in `inspect.getmembers` order. -/
structure MongoCollectionClass where
  skip_none : Bool
  fields : List (FieldMeta × PyVal)

/-- `cls()`: the default-constructed document instance. -/
def defaultInstance (cls : MongoCollectionClass) : PyVal :=
  .vDoc cls.skip_none cls.fields

/-- Lines 397-399: `mongo_fields[mongo_field.field_name] = mongo_field` over
the sorted discovered fields. -/
def buildFieldDict (l : List (FieldMeta × PyVal)) :
    List (String × (FieldMeta × PyVal)) :=
  l.foldl (fun d f => dictSet d f.1.field_name f) []

/-- Lines 401-403: for each input key/value, look the transient field object
up (raising `KeyError` when the key names no declared field) and overwrite
its `_value`.  The updated transient dict is returned (and discarded by
`from_dict`). -/
def from_dict_updates (transients : List (String × (FieldMeta × PyVal))) :
    List (String × PyVal) → Except PyErr (List (String × (FieldMeta × PyVal)))
  | [] => .ok transients
  | (key, value) :: rest =>
    match pyLookup transients key with
    | none => .error .keyError
    | some (m, _) => from_dict_updates (dictSet transients key (m, value)) rest

/-- `MongoCollectionBase.from_dict` (lines 394-405). -/
def from_dict (cls : MongoCollectionClass) (document_dict : List (String × PyVal)) :
    Except PyErr PyVal :=
  let collection := defaultInstance cls
  match from_dict_updates (buildFieldDict (sortFields cls.fields)) document_dict with
  | .error e => .error e
  | .ok _ => .ok collection

/-! ## Python `==` and `MongoCollectionBase.__eq__` (lines 103-104, 356-361)

`MongoFieldBase.__eq__` compares `value`, `field_name` and `mongo_type`;
`MongoCollectionBase.__eq__` iterates `self`'s discovered fields and compares
each against `getattr(other, name)` (the field of the same attribute name on
`other`; Python would raise `AttributeError` if `other` lacks it, which the
model folds into inequality).  Value comparison is Python `==`: numeric types
(`bool`/`int`/`Int64`/`float`) compare by value across types, `SON`/`dict`
compare as unordered key-value maps, embedded documents recurse through
`MongoCollectionBase.__eq__`, and mismatched non-numeric types are unequal. -/

/-- The numeric value of a Python number, if the value is one. -/
def pyNum : PyVal → Option Rat
  | .vBool b => some (if b then 1 else 0)
  | .vInt n => some (n : Rat)
  | .vInt64 n => some (n : Rat)
  | .vFloat q => some q
  | _ => none

mutual

/-- Python `==` on the values of the model. -/
def pyEq : PyVal → PyVal → Bool
  | a, b =>
    match pyNum a, pyNum b with
    | some x, some y => x == y
    | _, _ =>
      match a, b with
      | .vNone, .vNone => true
      | .vStr s, .vStr t => s == t
      | .vBytes bs, .vBytes cs => bs == cs
      | .vBytes bs, .vBinary cs _ => bs == cs
      | .vBinary bs _, .vBytes cs => bs == cs
      | .vBinary bs st, .vBinary cs st2 => bs == cs && st == st2
      | .vObjectId o, .vObjectId p => o == p
      | .vDatetime y1 mo1 d1 h1 mi1 s1, .vDatetime y2 mo2 d2 h2 mi2 s2 =>
        y1 == y2 && mo1 == mo2 && d1 == d2 && h1 == h2 && mi1 == mi2 && s1 == s2
      | .vDate y1 mo1 d1, .vDate y2 mo2 d2 => y1 == y2 && mo1 == mo2 && d1 == d2
      | .vDec128 s, .vDec128 t => s == t
      | .vRegexVal p1 f1, .vRegexVal p2 f2 => p1 == p2 && f1 == f2
      | .vTimestamp t1 i1, .vTimestamp t2 i2 => t1 == t2 && i1 == i2
      | .vList xs, .vList ys => pyEqList xs ys
      | .vSon es, .vSon fs =>
        pyEqSonSub es fs
          && fs.all (fun e => es.any (fun e2 => e2.1 == e.1))
      | .vDoc _ fs, .vDoc _ fs2 => docFieldsEq (sortFields fs) fs2
      | _, _ => false
termination_by a b => sizeOf a + sizeOf b
decreasing_by
  all_goals simp only [PyVal.vList.sizeOf_spec, PyVal.vSon.sizeOf_spec,
    PyVal.vDoc.sizeOf_spec, sizeOf_sortFields]
  all_goals omega

/-- Python `==` on lists, element by element. -/
def pyEqList : List PyVal → List PyVal → Bool
  | [], [] => true
  | x :: xs, y :: ys => pyEq x y && pyEqList xs ys
  | _, _ => false
termination_by xs ys => sizeOf xs + sizeOf ys
decreasing_by
  all_goals simp only [List.cons.sizeOf_spec]
  all_goals omega

/-- One direction of `dict` equality: every entry of `es` has a matching
entry (by first occurrence of its key) in `fs`. -/
def pyEqSonSub : List (String × PyVal) → List (String × PyVal) → Bool
  | [], _ => true
  | (k, v) :: es, fs => pyEqSonFind k v fs && pyEqSonSub es fs
termination_by es fs => sizeOf es + sizeOf fs
decreasing_by
  all_goals simp only [List.cons.sizeOf_spec, Prod.mk.sizeOf_spec]
  all_goals omega

/-- Find key `k` in `fs` and compare the value found with `v`. -/
def pyEqSonFind (k : String) (v : PyVal) : List (String × PyVal) → Bool
  | [] => false
  | (k2, w) :: fs => if k2 = k then pyEq v w else pyEqSonFind k v fs
termination_by fs => sizeOf v + sizeOf fs
decreasing_by
  all_goals simp only [List.cons.sizeOf_spec, Prod.mk.sizeOf_spec]
  all_goals omega

/-- The loop of `MongoCollectionBase.__eq__` (lines 357-361) over `self`'s
sorted fields. -/
def docFieldsEq : List (FieldMeta × PyVal) → List (FieldMeta × PyVal) → Bool
  | [], _ => true
  | (m, v) :: fs, others => docFieldFind m v others && docFieldsEq fs others
termination_by l others => sizeOf l + sizeOf others
decreasing_by
  all_goals simp only [List.cons.sizeOf_spec, Prod.mk.sizeOf_spec]
  all_goals omega

/-- `getattr(other, name)` followed by `MongoFieldBase.__eq__` (lines
103-104): find `other`'s field of the same attribute name and compare value,
wire name and mongo type.  A missing attribute (Python: `AttributeError`) is
folded into `false`. -/
def docFieldFind (m : FieldMeta) (v : PyVal) : List (FieldMeta × PyVal) → Bool
  | [] => false
  | (m2, v2) :: rest =>
    if m2.attr_name = m.attr_name then
      pyEq v v2 && m.field_name == m2.field_name
        && mongoTypeOf m.kind == mongoTypeOf m2.kind
    else docFieldFind m v rest
termination_by l => sizeOf v + sizeOf l
decreasing_by
  all_goals simp only [List.cons.sizeOf_spec, Prod.mk.sizeOf_spec]
  all_goals omega

end

end Mongorm

namespace Mongorm

/-! ## Field declaration decorators (lines 279-344)

A decorator call produces a `FieldWrapper(cls, field_name, skip_none, *args)`;
reading the decorated property then constructs
`cls(func(self), f_name, skip_none, *args)` with `f_name` the declared name or
the getter's `__name__` (lines 291-301).  The per-class constructor state is
folded into `FieldKind`; `RegExField.__init__` (lines 228-231) sets
`self._flags = 0` regardless of the `flags` argument it receives, and
`ObjectIdField.__init__` (lines 210-217) renames the field to `'_id'` when
`primary_key` is true. -/

/-- The state of a `FieldWrapper` (lines 279-289): the field class plus the
constructor arguments captured by the decorator. -/
structure FieldWrapperState where
  field_name : Option String
  skip_none : Bool
  kind : FieldKind

/-- `object_id_field` (lines 334-335). -/
def object_id_field (primary_key : Bool) (field_name : Option String)
    (skip_none : Bool) : FieldWrapperState :=
  { field_name := field_name, skip_none := skip_none,
    kind := .objectIdF primary_key }

/-- `regex_field` (lines 337-338): the `flags` argument is forwarded to
`RegExField.__init__`, which ignores it and stores `0` (line 231). -/
def regex_field (flags : Int) (field_name : Option String)
    (skip_none : Bool) : FieldWrapperState :=
  have _ : Int := flags
  { field_name := field_name, skip_none := skip_none, kind := .regexF 0 }

/-- `string_field` (lines 340-341). -/
def string_field (field_name : Option String) (skip_none : Bool) :
    FieldWrapperState :=
  { field_name := field_name, skip_none := skip_none, kind := .stringF }

/-- `datetime_field` (lines 319-320). -/
def datetime_field (field_name : Option String) (skip_none : Bool) :
    FieldWrapperState :=
  { field_name := field_name, skip_none := skip_none, kind := .datetimeF }

/-- `int_field` (lines 325-326). -/
def int_field (field_name : Option String) (skip_none : Bool) :
    FieldWrapperState :=
  { field_name := field_name, skip_none := skip_none, kind := .intF }

/-- The field-name resolution done by the field class constructors: only
`ObjectIdField.__init__` overrides the name, to `'_id'`, when `primary_key`
(lines 216-217). -/
def resolvedFieldName : FieldKind → String → String
  | .objectIdF true, _ => "_id"
  | _, n => n

/-- `FieldWrapper.__call__`'s wrapper body (lines 294-300): construct the
field object from the getter's name and returned backing value; `counter` is
the wrapper's `_field_counter`. -/
def FieldWrapper_read (w : FieldWrapperState) (func_name : String)
    (counter : Nat) (value : PyVal) : FieldMeta × PyVal :=
  let f_name := w.field_name.getD func_name
  ({ attr_name := func_name, field_name := resolvedFieldName w.kind f_name,
     skip_none := w.skip_none, kind := w.kind, field_counter := counter },
   value)

end Mongorm

namespace Mongorm

/-! ## Supporting lemmas for `from_dict` -/

theorem isSome_pyLookup_dictSet {α : Type} (l : List (String × α))
    (key k : String) (x : α) :
    (pyLookup (dictSet l key x) k).isSome = true ↔
      (k = key ∨ (pyLookup l k).isSome = true) := by
  by_cases h : k = key
  · subst h
    rw [pyLookup_dictSet_self]
    simp
  · rw [pyLookup_dictSet_other x h]
    simp [h]

theorem isSome_pyLookup_buildFieldDict_aux (l : List (FieldMeta × PyVal))
    (d : List (String × (FieldMeta × PyVal))) (k : String) :
    (pyLookup (l.foldl (fun d f => dictSet d f.1.field_name f) d) k).isSome = true ↔
      (k ∈ l.map (fun f => f.1.field_name) ∨ (pyLookup d k).isSome = true) := by
  induction l generalizing d with
  | nil => simp
  | cons f fs ih =>
    rw [List.foldl_cons, ih, isSome_pyLookup_dictSet, List.map_cons, List.mem_cons]
    tauto

theorem isSome_pyLookup_buildFieldDict (l : List (FieldMeta × PyVal)) (k : String) :
    (pyLookup (buildFieldDict l) k).isSome = true ↔
      k ∈ l.map (fun f => f.1.field_name) := by
  rw [buildFieldDict, isSome_pyLookup_buildFieldDict_aux]
  simp [pyLookup]

theorem mem_map_sortFields {l : List (FieldMeta × PyVal)}
    {g : FieldMeta × PyVal → String} {k : String} :
    k ∈ (sortFields l).map g ↔ k ∈ l.map g := by
  simp only [List.mem_map]
  constructor
  · rintro ⟨p, hp, rfl⟩
    exact ⟨p, mem_sortFields.mp hp, rfl⟩
  · rintro ⟨p, hp, rfl⟩
    exact ⟨p, mem_sortFields.mpr hp, rfl⟩

theorem from_dict_updates_err {transients : List (String × (FieldMeta × PyVal))}
    {l : List (String × PyVal)} {k : String} {v : PyVal}
    (hmem : (k, v) ∈ l) (hnone : pyLookup transients k = none) :
    from_dict_updates transients l = .error .keyError := by
  induction l generalizing transients with
  | nil => cases hmem
  | cons e rest ih =>
    obtain ⟨k1, v1⟩ := e
    rw [from_dict_updates]
    rcases hl : pyLookup transients k1 with _ | ⟨m, x⟩
    · rfl
    · have hne : ¬k = k1 := by
        rintro rfl
        rw [hl] at hnone
        cases hnone
      rcases List.mem_cons.mp hmem with he | hrest
      · exact absurd (congrArg Prod.fst he) hne
      · exact ih hrest (by rw [pyLookup_dictSet_other _ hne]; exact hnone)

theorem from_dict_updates_ok {transients : List (String × (FieldMeta × PyVal))}
    {l : List (String × PyVal)}
    (hall : ∀ k v, (k, v) ∈ l → (pyLookup transients k).isSome = true) :
    ∃ final, from_dict_updates transients l = .ok final := by
  induction l generalizing transients with
  | nil => exact ⟨transients, rfl⟩
  | cons e rest ih =>
    obtain ⟨k1, v1⟩ := e
    rw [from_dict_updates]
    rcases hl : pyLookup transients k1 with _ | ⟨m, x⟩
    · have := hall k1 v1 (List.mem_cons_self _ _)
      rw [hl] at this
      cases this
    · exact ih (fun k v hm => by
        rw [isSome_pyLookup_dictSet]
        exact Or.inr (hall k v (List.mem_cons_of_mem _ hm)))

/-! ## Claims C5, C9 -/

/-- **C5**: if the input mapping contains a key with no corresponding declared
field on the document class, `from_dict` raises a lookup error (`KeyError`);
unknown keys are never silently ignored. -/
theorem from_dict_unknown_key (cls : MongoCollectionClass)
    (document_dict : List (String × PyVal)) (k : String) (v : PyVal)
    (hmem : (k, v) ∈ document_dict)
    (hunknown : k ∉ cls.fields.map (fun f => f.1.field_name)) :
    from_dict cls document_dict = .error .keyError := by
  have hnone : pyLookup (buildFieldDict (sortFields cls.fields)) k = none := by
    rcases hl : pyLookup (buildFieldDict (sortFields cls.fields)) k with _ | x
    · rfl
    · exfalso
      apply hunknown
      rw [← mem_map_sortFields (g := fun f => f.1.field_name)]
      rw [← isSome_pyLookup_buildFieldDict, hl]
      rfl
  rw [from_dict, from_dict_updates_err hmem hnone]

/-- **C5 witness**: a concrete class with one declared field `name` rejects
an input containing the unknown key `bogus`. -/
theorem from_dict_unknown_key_witness :
    from_dict
      ⟨false, [(⟨"name", "name", false, .stringF, 2⟩, .vStr "John")]⟩
      [("bogus", .vNone)] = .error .keyError :=
  from_dict_unknown_key _ _ "bogus" .vNone (List.mem_singleton_self _)
    (by decide)

/-- **C9**: when every input key names a declared field, the document
`from_dict` returns is the default-constructed instance: the property wrapper
(`FieldWrapper.__call__`) re-creates a fresh field object on every attribute
read, so the values `from_dict` writes onto those transient objects never
reach the backing attributes, and `to_son` on the returned document equals
`cls().to_son()`. -/
theorem from_dict_observably_default (cls : MongoCollectionClass)
    (document_dict : List (String × PyVal))
    (hall : ∀ k v, (k, v) ∈ document_dict →
      k ∈ cls.fields.map (fun f => f.1.field_name)) :
    from_dict cls document_dict = .ok (defaultInstance cls) ∧
    ∀ d, from_dict cls document_dict = .ok d →
      value_to_son d = value_to_son (defaultInstance cls) := by
  have hsome : ∀ k v, (k, v) ∈ document_dict →
      (pyLookup (buildFieldDict (sortFields cls.fields)) k).isSome = true := by
    intro k v hm
    rw [isSome_pyLookup_buildFieldDict, mem_map_sortFields]
    exact hall k v hm
  obtain ⟨final, hfinal⟩ := from_dict_updates_ok hsome
  have hok : from_dict cls document_dict = .ok (defaultInstance cls) := by
    rw [from_dict, hfinal]
  refine ⟨hok, ?_⟩
  intro d hd
  rw [hok] at hd
  cases hd
  rfl

/-- **C9 witness**: a concrete `from_dict` call whose input keys all match
declared fields returns the default instance, although the input carries a
different value for the `name` field. -/
theorem from_dict_observably_default_witness :
    from_dict
      ⟨false, [(⟨"name", "name", false, .stringF, 2⟩, .vStr "John")]⟩
      [("name", .vStr "Alice")]
      = .ok (defaultInstance
          ⟨false, [(⟨"name", "name", false, .stringF, 2⟩, .vStr "John")]⟩) :=
  (from_dict_observably_default _ _
    (by intro k v hm; simp at hm; simp [hm])).1

end Mongorm

namespace Mongorm

/-! ## Claims C6, C10 -/

/-- **C6**: `DateTimeField.to_mongo` returns a datetime unchanged, promotes a
plain date to a midnight datetime with the same year, month and day, and for
any other value (including `None`) raises a `TypeError` that propagates to the
caller. -/
theorem datetime_to_mongo_cases (v : PyVal) :
    (∀ y mo d h mi s, v = .vDatetime y mo d h mi s → to_mongo .datetimeF v = .ok v) ∧
    (∀ y mo d, v = .vDate y mo d → to_mongo .datetimeF v = .ok (.vDatetime y mo d 0 0 0)) ∧
    ((∀ y mo d h mi s, v ≠ .vDatetime y mo d h mi s) →
      (∀ y mo d, v ≠ .vDate y mo d) →
      to_mongo .datetimeF v = .error .typeError) := by
  refine ⟨?_, ?_, ?_⟩
  · rintro y mo d h mi s rfl
    rfl
  · rintro y mo d rfl
    rfl
  · intro h1 h2
    cases v <;> first
      | rfl
      | exact absurd rfl (h1 _ _ _ _ _ _)
      | exact absurd rfl (h2 _ _ _)

/-- **C6 witness**: the three cases at concrete values, including `None` in
the type-error case. -/
theorem datetime_to_mongo_cases_witness :
    to_mongo .datetimeF (.vDatetime 2020 7 26 23 49 0)
      = .ok (.vDatetime 2020 7 26 23 49 0) ∧
    to_mongo .datetimeF (.vDate 2020 7 26) = .ok (.vDatetime 2020 7 26 0 0 0) ∧
    to_mongo .datetimeF .vNone = .error .typeError :=
  ⟨(datetime_to_mongo_cases (.vDatetime 2020 7 26 23 49 0)).1 2020 7 26 23 49 0 rfl,
   (datetime_to_mongo_cases (.vDate 2020 7 26)).2.1 2020 7 26 rfl,
   (datetime_to_mongo_cases .vNone).2.2
     (fun _ _ _ _ _ _ h => PyVal.noConfusion h)
     (fun _ _ _ h => PyVal.noConfusion h)⟩

/-- **C10**: the regex field decorator forwards its `flags` argument to
`RegExField.__init__`, which stores flags value `0` unconditionally; hence for
any non-`Regex` pattern value, the wire conversion of the constructed field
produces a regex with flags `0`. -/
theorem regex_flags_ignored (flags : Int) (fname : Option String) (skip : Bool)
    (func_name : String) (counter : Nat) (v w : PyVal) :
    (FieldWrapper_read (regex_field flags fname skip) func_name counter v).1.kind
        = .regexF 0 ∧
    ((∀ p f, v ≠ .vRegexVal p f) →
      to_mongo
        (FieldWrapper_read (regex_field flags fname skip) func_name counter v).1.kind
        v = .ok w →
      ∃ p, w = .vRegexVal p 0) := by
  refine ⟨rfl, ?_⟩
  intro hnr hok
  cases v with
  | vRegexVal p f => exact absurd rfl (hnr p f)
  | vStr p =>
    refine ⟨p, ?_⟩
    have : Except.ok (ε := PyErr) (.vRegexVal p 0) = .ok w := hok
    cases this
    rfl
  | vNone => cases hok
  | vBool b => cases hok
  | vInt n => cases hok
  | vInt64 n => cases hok
  | vFloat q => cases hok
  | vBytes bs => cases hok
  | vBinary bs st => cases hok
  | vObjectId o => cases hok
  | vDatetime y mo d h mi s => cases hok
  | vDate y mo d => cases hok
  | vDec128 s => cases hok
  | vTimestamp t i => cases hok
  | vList xs => cases hok
  | vSon es => cases hok
  | vDoc sn fs => cases hok

/-- **C10 witness**: with decorator argument `flags = 2` and the string
pattern `"ab*"`, the constructed field's stored flags are `0` and the wire
conversion yields a flags-`0` regex. -/
theorem regex_flags_ignored_witness :
    (FieldWrapper_read (regex_field 2 none false) "some_regex" 7
        (.vStr "ab*")).1.kind = .regexF 0 ∧
    (∃ p, (PyVal.vRegexVal "ab*" 0) = .vRegexVal p 0) :=
  ⟨(regex_flags_ignored 2 none false "some_regex" 7 (.vStr "ab*")
      (.vRegexVal "ab*" 0)).1,
   (regex_flags_ignored 2 none false "some_regex" 7 (.vStr "ab*")
      (.vRegexVal "ab*" 0)).2
     (fun _ _ h => PyVal.noConfusion h) rfl⟩

end Mongorm

namespace Mongorm

/-! ## Supporting lemmas for `to_son` -/

theorem fields_to_son_absent {sn : Bool} {l : List (FieldMeta × PyVal)}
    {son0 son : List (String × PyVal)} {N : String}
    (hallskip : ∀ m v, (m, v) ∈ l → emittedName m = N →
      ((sn || m.skip_none) = true ∧ v = .vNone))
    (hson0 : N ∉ son0.map Prod.fst)
    (hok : fields_to_son sn l son0 = .ok son) :
    N ∉ son.map Prod.fst := by
  induction l generalizing son0 with
  | nil =>
    rw [fields_to_son] at hok
    cases hok
    exact hson0
  | cons e fs ih =>
    obtain ⟨m, v⟩ := e
    have htail : ∀ m2 v2, (m2, v2) ∈ fs → emittedName m2 = N →
        ((sn || m2.skip_none) = true ∧ v2 = .vNone) :=
      fun m2 v2 hm hn => hallskip m2 v2 (List.mem_cons_of_mem _ hm) hn
    rw [fields_to_son] at hok
    by_cases hskip : ((sn || m.skip_none) && isNoneVal v) = true
    · rw [if_pos hskip] at hok
      exact ih htail hson0 hok
    · rw [if_neg hskip] at hok
      by_cases hpk : isPkKind m.kind = true
      · rw [if_pos hpk] at hok
        have hne : ¬("_id" : String) = N := by
          intro h
          have hskip2 := hallskip m v (List.mem_cons_self _ _)
            (by rw [emittedName, if_pos hpk]; exact h)
          rw [hskip2.1, hskip2.2] at hskip
          simp [isNoneVal] at hskip
        refine ih htail ?_ hok
        intro hN
        rcases mem_keys_dictSet.mp hN with h1 | h2
        · exact hne h1.symm
        · exact hson0 h2
      · rw [if_neg hpk] at hok
        have hname : ¬m.field_name = N := by
          intro h
          have hskip2 := hallskip m v (List.mem_cons_self _ _)
            (by rw [emittedName, if_neg hpk]; exact h)
          rw [hskip2.1, hskip2.2] at hskip
          simp [isNoneVal] at hskip
        have hkeep : ∀ w, N ∉ (dictSet son0 m.field_name w).map Prod.fst := by
          intro w hN
          rcases mem_keys_dictSet.mp hN with h1 | h2
          · exact hname h1.symm
          · exact hson0 h2
        by_cases hemb : isEmbKind m.kind = true
        · rw [if_pos hemb] at hok
          rcases hvs : value_to_son v with e2 | inner
          · simp only [hvs] at hok
            cases hok
          · simp only [hvs] at hok
            exact ih htail (hkeep _) hok
        · rw [if_neg hemb] at hok
          rcases htm : to_mongo m.kind v with e2 | w
          · simp only [htm] at hok
            cases hok
          · simp only [htm] at hok
            exact ih htail (hkeep _) hok

end Mongorm

namespace Mongorm

/-! ## Claim C3 -/

/-- **C3**: a field whose skip-if-null flag is true and whose value is null
does not appear in the `to_son()` output; and for a document with
document-level skip-none, every null-valued field is absent from the output
(in both cases provided all fields emitting under the same wire name are also
skipped — wire names are unique in well-formed documents). -/
theorem to_son_skip_none (sn : Bool) (fields : List (FieldMeta × PyVal))
    (son : List (String × PyVal)) (m : FieldMeta) (v : PyVal) :
    ((m, v) ∈ fields → m.skip_none = true → v = .vNone →
      (∀ m2 v2, (m2, v2) ∈ fields → emittedName m2 = emittedName m →
        ((sn || m2.skip_none) = true ∧ v2 = .vNone)) →
      value_to_son (.vDoc sn fields) = .ok son →
      emittedName m ∉ son.map Prod.fst) ∧
    (sn = true → (m, v) ∈ fields → v = .vNone →
      (∀ m2 v2, (m2, v2) ∈ fields → emittedName m2 = emittedName m → v2 = .vNone) →
      value_to_son (.vDoc sn fields) = .ok son →
      emittedName m ∉ son.map Prod.fst) := by
  constructor
  · intro _ _ _ hall hok
    rw [value_to_son] at hok
    exact fields_to_son_absent
      (fun m2 v2 hm hn => hall m2 v2 (mem_sortFields.mp hm) hn)
      (by simp) hok
  · intro hsn _ _ hall hok
    rw [value_to_son] at hok
    subst hsn
    exact fields_to_son_absent
      (fun m2 v2 hm hn => ⟨Bool.true_or _, hall m2 v2 (mem_sortFields.mp hm) hn⟩)
      (by simp) hok

/-- **C3 witness**: a concrete document with a skip-none string field holding
`None` serializes without that field's name among the output keys. -/
theorem to_son_skip_none_witness :
    "empty_field" ∉ ([("name", PyVal.vStr "John")] : List (String × PyVal)).map Prod.fst :=
  (to_son_skip_none false
    [(⟨"empty_field", "empty_field", true, .stringF, 1⟩, .vNone),
     (⟨"name", "name", false, .stringF, 2⟩, .vStr "John")]
    [("name", .vStr "John")]
    ⟨"empty_field", "empty_field", true, .stringF, 1⟩ .vNone).1
    (List.mem_cons_self _ _) rfl rfl
    (by
      intro m2 v2 hm hn
      simp only [List.mem_cons, List.not_mem_nil, or_false, Prod.mk.injEq] at hm
      rcases hm with ⟨rfl, rfl⟩ | ⟨rfl, rfl⟩
      · exact ⟨rfl, rfl⟩
      · exact absurd hn (by decide))
    (by simp [value_to_son, fields_to_son, sortFields, insertByCounter,
        dictSet, to_mongo, isNoneVal, isPkKind, isEmbKind])

/-! ## Supporting lemmas for claim C4 -/

theorem isNoneVal_iff {v : PyVal} : isNoneVal v = true ↔ v = .vNone := by
  cases v <;> simp [isNoneVal]

theorem fields_to_son_id_keeps {sn : Bool} {l : List (FieldMeta × PyVal)}
    {son0 son : List (String × PyVal)} {m : FieldMeta} {v : PyVal}
    (hm : m.kind = .objectIdF true)
    (huniq : ∀ m2 v2, (m2, v2) ∈ l → emittedName m2 = "_id" → m2 = m ∧ v2 = v)
    (hl0 : pyLookup son0 "_id" = some v)
    (hok : fields_to_son sn l son0 = .ok son) :
    pyLookup son "_id" = some v := by
  induction l generalizing son0 with
  | nil =>
    rw [fields_to_son] at hok
    cases hok
    exact hl0
  | cons e fs ih =>
    obtain ⟨m1, v1⟩ := e
    have htail : ∀ m2 v2, (m2, v2) ∈ fs → emittedName m2 = "_id" → m2 = m ∧ v2 = v :=
      fun m2 v2 h2 hn => huniq m2 v2 (List.mem_cons_of_mem _ h2) hn
    rw [fields_to_son] at hok
    by_cases hskip : ((sn || m1.skip_none) && isNoneVal v1) = true
    · rw [if_pos hskip] at hok
      exact ih htail hl0 hok
    · rw [if_neg hskip] at hok
      by_cases hpk : isPkKind m1.kind = true
      · rw [if_pos hpk] at hok
        have heq := huniq m1 v1 (List.mem_cons_self _ _)
          (by rw [emittedName, if_pos hpk])
        rw [heq.2] at hok
        exact ih htail (pyLookup_dictSet_self _ _ _) hok
      · rw [if_neg hpk] at hok
        have hname : ¬("_id" : String) = m1.field_name := by
          intro h
          have heq := huniq m1 v1 (List.mem_cons_self _ _)
            (by rw [emittedName, if_neg hpk]; exact h.symm)
          rw [heq.1, hm] at hpk
          exact hpk rfl
        by_cases hemb : isEmbKind m1.kind = true
        · rw [if_pos hemb] at hok
          rcases hvs : value_to_son v1 with e2 | inner
          · simp only [hvs] at hok
            cases hok
          · simp only [hvs] at hok
            exact ih htail (by rw [pyLookup_dictSet_other _ hname]; exact hl0) hok
        · rw [if_neg hemb] at hok
          rcases htm : to_mongo m1.kind v1 with e2 | w
          · simp only [htm] at hok
            cases hok
          · simp only [htm] at hok
            exact ih htail (by rw [pyLookup_dictSet_other _ hname]; exact hl0) hok

theorem fields_to_son_id_emits {sn : Bool} {l : List (FieldMeta × PyVal)}
    {son0 son : List (String × PyVal)} {m : FieldMeta} {v : PyVal}
    (hmem : (m, v) ∈ l)
    (hm : m.kind = .objectIdF true)
    (hnotskip : ¬((sn || m.skip_none) = true ∧ v = .vNone))
    (huniq : ∀ m2 v2, (m2, v2) ∈ l → emittedName m2 = "_id" → m2 = m ∧ v2 = v)
    (hok : fields_to_son sn l son0 = .ok son) :
    pyLookup son "_id" = some v := by
  induction l generalizing son0 with
  | nil => cases hmem
  | cons e fs ih =>
    obtain ⟨m1, v1⟩ := e
    have htail : ∀ m2 v2, (m2, v2) ∈ fs → emittedName m2 = "_id" → m2 = m ∧ v2 = v :=
      fun m2 v2 h2 hn => huniq m2 v2 (List.mem_cons_of_mem _ h2) hn
    rw [fields_to_son] at hok
    by_cases hskip : ((sn || m1.skip_none) && isNoneVal v1) = true
    · rw [if_pos hskip] at hok
      rcases List.mem_cons.mp hmem with he | hmem2
      · exfalso
        rw [Prod.mk.injEq] at he
        obtain ⟨rfl, rfl⟩ := he
        rcases Bool.and_eq_true .. |>.mp hskip with ⟨h1, h2⟩
        exact hnotskip ⟨h1, isNoneVal_iff.mp h2⟩
      · exact ih hmem2 htail hok
    · rw [if_neg hskip] at hok
      by_cases hpk : isPkKind m1.kind = true
      · rw [if_pos hpk] at hok
        have heq := huniq m1 v1 (List.mem_cons_self _ _)
          (by rw [emittedName, if_pos hpk])
        rw [heq.2] at hok
        exact fields_to_son_id_keeps hm htail (pyLookup_dictSet_self _ _ _) hok
      · rw [if_neg hpk] at hok
        have hmem2 : (m, v) ∈ fs := by
          rcases List.mem_cons.mp hmem with he | hmem2
          · exfalso
            rw [Prod.mk.injEq] at he
            obtain ⟨rfl, rfl⟩ := he
            rw [hm] at hpk
            exact hpk rfl
          · exact hmem2
        by_cases hemb : isEmbKind m1.kind = true
        · rw [if_pos hemb] at hok
          rcases hvs : value_to_son v1 with e2 | inner
          · simp only [hvs] at hok
            cases hok
          · simp only [hvs] at hok
            exact ih hmem2 htail hok
        · rw [if_neg hemb] at hok
          rcases htm : to_mongo m1.kind v1 with e2 | w
          · simp only [htm] at hok
            cases hok
          · simp only [htm] at hok
            exact ih hmem2 htail hok

end Mongorm

namespace Mongorm

/-! ## Claim C4 -/

/-- **C4**: a field marked as primary key on the `ObjectIdField` variant is
emitted by `to_son` under the reserved key `'_id'` holding the field's raw
value, regardless of the name declared for the field (the uniqueness
hypothesis says no other field emits under `'_id'`, per the document
invariant of unique wire names); moreover the decorator/constructor chain
resolves a primary-key field's wire name to `'_id'` no matter which
`field_name` the decorator declares. -/
theorem to_son_primary_key_under_id (sn : Bool)
    (fields : List (FieldMeta × PyVal)) (son : List (String × PyVal))
    (m : FieldMeta) (v : PyVal)
    (hmem : (m, v) ∈ fields)
    (hpk : m.kind = .objectIdF true)
    (hnotskip : ¬((sn || m.skip_none) = true ∧ v = .vNone))
    (huniq : ∀ m2 v2, (m2, v2) ∈ fields → emittedName m2 = "_id" →
      m2 = m ∧ v2 = v)
    (hok : value_to_son (.vDoc sn fields) = .ok son) :
    pyLookup son "_id" = some v ∧
    ∀ (declared : Option String) (skip : Bool) (func_name : String)
      (counter : Nat) (value : PyVal),
      (FieldWrapper_read (object_id_field true declared skip)
        func_name counter value).1.field_name = "_id" := by
  refine ⟨?_, fun _ _ _ _ _ => rfl⟩
  rw [value_to_son] at hok
  exact fields_to_son_id_emits (mem_sortFields.mpr hmem) hpk hnotskip
    (fun m2 v2 h2 hn => huniq m2 v2 (mem_sortFields.mp h2) hn) hok

/-- **C4 witness**: a primary-key field declared under the name
`"custom_name"` still serializes under `'_id'`, holding its raw value. -/
theorem to_son_primary_key_under_id_witness :
    pyLookup [("_id", PyVal.vObjectId 5), ("name", PyVal.vStr "John")] "_id"
      = some (PyVal.vObjectId 5) ∧
    ∀ (declared : Option String) (skip : Bool) (func_name : String)
      (counter : Nat) (value : PyVal),
      (FieldWrapper_read (object_id_field true declared skip)
        func_name counter value).1.field_name = "_id" :=
  to_son_primary_key_under_id false
    [(⟨"id", "custom_name", false, .objectIdF true, 1⟩, .vObjectId 5),
     (⟨"name", "name", false, .stringF, 2⟩, .vStr "John")]
    [("_id", .vObjectId 5), ("name", .vStr "John")]
    ⟨"id", "custom_name", false, .objectIdF true, 1⟩ (.vObjectId 5)
    (List.mem_cons_self _ _) rfl
    (by rintro ⟨-, h⟩; cases h)
    (by
      intro m2 v2 hm hn
      simp only [List.mem_cons, List.not_mem_nil, or_false, Prod.mk.injEq] at hm
      rcases hm with ⟨rfl, rfl⟩ | ⟨rfl, rfl⟩
      · exact ⟨rfl, rfl⟩
      · exact absurd hn (by decide))
    (by simp [value_to_son, fields_to_son, sortFields, insertByCounter,
        dictSet, to_mongo, isNoneVal, isPkKind, isEmbKind])

end Mongorm

namespace Mongorm

/-! ## Claim C1 -/

/-- The document class used to exhibit the `from_dict` round-trip failure:
a primary-key `ObjectIdField` `id` and a `StringField` `name` whose backing
attribute defaults to `"John"` (fields in `inspect.getmembers` order). -/
def roundTripClass : MongoCollectionClass :=
  ⟨false,
   [(⟨"id", "_id", false, .objectIdF true, 1⟩, .vObjectId 7),
    (⟨"name", "name", false, .stringF, 2⟩, .vStr "John")]⟩

/-- An instance of the same class whose `name` backing attribute was set to
`"Alice"` (e.g. through the generated property setter). -/
def roundTripAlice : PyVal :=
  .vDoc false
    [(⟨"id", "_id", false, .objectIdF true, 1⟩, .vObjectId 7),
     (⟨"name", "name", false, .stringF, 2⟩, .vStr "Alice")]

/-- **C1** (evaluation at the failing input): serializing the modified
instance and feeding the result back through `from_dict` returns the
default-constructed instance — `from_dict`'s assignments
`mongo_field._value = value` land on transient property-created wrappers —
so the round-tripped document is NOT structurally equal to the original
(`MongoCollectionBase.__eq__` returns `False` on the `name` field), contrary
to the round-trip property stated by the spec. -/
theorem from_dict_to_son_round_trip_fails :
    value_to_son roundTripAlice
      = .ok [("_id", .vObjectId 7), ("name", .vStr "Alice")] ∧
    from_dict roundTripClass [("_id", .vObjectId 7), ("name", .vStr "Alice")]
      = .ok (defaultInstance roundTripClass) ∧
    pyEq (defaultInstance roundTripClass) roundTripAlice = false := by
  refine ⟨?_, ?_, ?_⟩
  · simp [roundTripAlice, value_to_son, fields_to_son, sortFields,
      insertByCounter, dictSet, to_mongo, isNoneVal, isPkKind, isEmbKind]
  · simp [roundTripClass, from_dict, from_dict_updates, buildFieldDict,
      sortFields, insertByCounter, dictSet, pyLookup, defaultInstance]
  · simp [roundTripClass, roundTripAlice, defaultInstance, pyEq, docFieldsEq,
      docFieldFind, sortFields, insertByCounter, pyNum, mongoTypeOf]

end Mongorm
